import Mathlib

/-
Verification of the CRMB admission-control and caching engine.

This file gives a shallow embedding of the token-bucket rate limiter
(backend/src/services/rate_limiter.rs) and of the in-memory LRU+TTL cache
(backend/src/services/cache.rs), and proves or refutes the specified
properties about them.

Modelling conventions:
- Instants and Durations are rational numbers of seconds (the Rust code uses
  monotonic Instants and f64 seconds; f64 arithmetic is idealised as exact
  rational arithmetic).
- Instant subtraction saturates at zero, as Instant::duration_since and
  Instant::elapsed do in Rust.
- The cast from f64 to u32 in refill truncates toward zero; for non-negative
  values this is Int.floor followed by Int.toNat.
- u32 / u64 / usize counters are modelled as Nat; Rust saturating_sub is Nat
  subtraction.
- HashMap is modelled as an association list with the usual lookup, erase and
  overwrite operations; entry iteration order is never observed by the code
  under study (LRU order lives in the separate access_order vector).
- The while loop in MemoryCache::set is modelled with explicit fuel; a result
  of none for every fuel value models non-termination of the loop.
-/

namespace CRMB

/-- Instant::duration_since (also Instant::elapsed): the elapsed time from t
to now, saturating at zero when t is in the future of now. -/
def elapsedSince (now t : ℚ) : ℚ :=
  if t ≤ now then now - t else 0

/-- The u32 cast of a non-negative f64: truncation toward zero, i.e. the floor
mapped to Nat (negative values are saturated to zero, as the Rust cast does). -/
def floorNat (q : ℚ) : Nat :=
  q.floor.toNat

/-- Decision returned by the rate limiter (enum RateLimitResult in
rate_limiter.rs): Allowed, Denied with a retry_after duration, or Delayed
with a delay duration. -/
inductive RateLimitResult where
  | Allowed : RateLimitResult
  | Denied : ℚ → RateLimitResult
  | Delayed : ℚ → RateLimitResult
deriving DecidableEq, Repr

/-- struct TokenBucket of rate_limiter.rs. The Rust field min_interval is a
Duration obtained as config.min_interval.unwrap_or(0), so an absent interval
is the value zero. -/
structure TokenBucket where
  capacity : Nat
  tokens : Nat
  refillRate : ℚ
  lastRefill : ℚ
  minInterval : ℚ
  lastRequest : Option ℚ
deriving DecidableEq, Repr

/-- TokenBucket::refill: elapsed = now.duration_since(last_refill) (saturating
at zero); if elapsed > 0, add (elapsed * refill_rate) as u32 tokens, capped at
capacity, and set last_refill = now. -/
def TokenBucket.refill (now : ℚ) (b : TokenBucket) : TokenBucket :=
  if 0 < elapsedSince now b.lastRefill then
    { b with
        tokens := min (b.tokens + floorNat (elapsedSince now b.lastRefill * b.refillRate)) b.capacity
        lastRefill := now }
  else
    b

/-- The decision part of TokenBucket::check_request, taken on the already
refilled bucket: the min_interval check on last_request (with
time_since_last = last_request.elapsed(), saturating), then the
token-availability check. -/
def TokenBucket.postRefillDecision (now : ℚ) (r : TokenBucket) : RateLimitResult :=
  match r.lastRequest with
  | some lastReq =>
    if elapsedSince now lastReq < r.minInterval then
      RateLimitResult.Delayed (r.minInterval - elapsedSince now lastReq)
    else if 0 < r.tokens then
      RateLimitResult.Allowed
    else
      RateLimitResult.Denied (1 / r.refillRate)
  | none =>
    if 0 < r.tokens then
      RateLimitResult.Allowed
    else
      RateLimitResult.Denied (1 / r.refillRate)

/-- TokenBucket::check_request: refill in place, decide on the refilled
bucket, and return the decision together with the mutated bucket (the
decision itself spends no token). -/
def TokenBucket.checkRequest (now : ℚ) (b : TokenBucket) : RateLimitResult × TokenBucket :=
  (TokenBucket.postRefillDecision now (b.refill now), b.refill now)

/-- TokenBucket::consume_token: if tokens > 0, decrement tokens and set
last_request = now. -/
def TokenBucket.consumeToken (now : ℚ) (b : TokenBucket) : TokenBucket :=
  if 0 < b.tokens then
    { b with tokens := b.tokens - 1, lastRequest := some now }
  else
    b

/-- TokenBucket::reset: tokens = capacity, last_refill = now,
last_request = None. -/
def TokenBucket.reset (now : ℚ) (b : TokenBucket) : TokenBucket :=
  { b with tokens := b.capacity, lastRefill := now, lastRequest := none }

/-- Steps 2 to 4 of the decision order exactly as the specification words
them, on the refilled bucket: if last_request is set and
now - last_request < min_interval, return Delayed with delay
min_interval - (now - last_request); else if tokens > 0, Allowed; else
Denied with retry_after = 1 / refill_rate. -/
def specDecisionAfterRefill (now : ℚ) (r : TokenBucket) : RateLimitResult :=
  match r.lastRequest with
  | some lastReq =>
    if now - lastReq < r.minInterval then
      RateLimitResult.Delayed (r.minInterval - (now - lastReq))
    else if 0 < r.tokens then
      RateLimitResult.Allowed
    else
      RateLimitResult.Denied (1 / r.refillRate)
  | none =>
    if 0 < r.tokens then
      RateLimitResult.Allowed
    else
      RateLimitResult.Denied (1 / r.refillRate)

/-- The full decision order as the specification words it: step 1 refill,
then steps 2 to 4 on the refilled bucket. -/
def checkDecisionSpec (now : ℚ) (b : TokenBucket) : RateLimitResult :=
  specDecisionAfterRefill now (b.refill now)

/-- One sequential call of acquire_permit in its immediate form: check, and on
Allowed consume a token at the same instant (the check and the consume happen
under one exclusive borrow of the limiter, with no suspension point between
them, so the pair is one atomic step with respect to other callers). -/
def TokenBucket.checkAndConsume (now : ℚ) (b : TokenBucket) : RateLimitResult × TokenBucket :=
  match b.checkRequest now with
  | (RateLimitResult.Allowed, r) => (RateLimitResult.Allowed, r.consumeToken now)
  | (res, r) => (res, r)

/-- n serialized check-and-consume calls against one bucket at a single
instant, collecting the observed decisions. -/
def TokenBucket.runCalls (now : ℚ) : Nat → TokenBucket → List RateLimitResult × TokenBucket
  | 0, b => ([], b)
  | n + 1, b =>
    let step := b.checkAndConsume now
    let rest := TokenBucket.runCalls now n step.2
    (step.1 :: rest.1, rest.2)

/-- Number of Allowed outcomes in a list of decisions. -/
def countAllowed : List RateLimitResult → Nat
  | [] => 0
  | RateLimitResult.Allowed :: rest => countAllowed rest + 1
  | _ :: rest => countAllowed rest

/-- Number of Denied outcomes in a list of decisions. -/
def countDenied : List RateLimitResult → Nat
  | [] => 0
  | RateLimitResult.Denied _ :: rest => countDenied rest + 1
  | _ :: rest => countDenied rest

/-- The bucket-mutating operations of the rate limiter: check_request,
consume_token, refill, reset, and the status queries (get_token_count,
time_until_available, get_status), which all refill the bucket. -/
inductive BucketOp where
  | check : ℚ → BucketOp
  | consume : ℚ → BucketOp
  | refillNow : ℚ → BucketOp
  | resetNow : ℚ → BucketOp
  | statusQuery : ℚ → BucketOp

/-- Effect of one bucket operation on the bucket state. -/
def BucketOp.apply (op : BucketOp) (b : TokenBucket) : TokenBucket :=
  match op with
  | BucketOp.check now => (b.checkRequest now).2
  | BucketOp.consume now => b.consumeToken now
  | BucketOp.refillNow now => b.refill now
  | BucketOp.resetNow now => b.reset now
  | BucketOp.statusQuery now => b.refill now

/-- A sequence of bucket operations applied in order. -/
def runOps (ops : List BucketOp) (b : TokenBucket) : TokenBucket :=
  ops.foldl (fun acc op => op.apply acc) b

/-- struct RateLimiter of rate_limiter.rs: a map from service name to
TokenBucket. -/
structure RateLimiter where
  buckets : String → Option TokenBucket

/-- RateLimiter::check_rate_limit: route to the bucket of the named service;
if none is configured, allow the request and leave the state unchanged. -/
def RateLimiter.checkRateLimit (now : ℚ) (name : String) (rl : RateLimiter) :
    RateLimitResult × RateLimiter :=
  match rl.buckets name with
  | some b =>
    let step := b.checkRequest now
    (step.1, ⟨fun n => if n = name then some step.2 else rl.buckets n⟩)
  | none => (RateLimitResult.Allowed, rl)

/-- RateLimiter::consume_token: consume on the bucket of the named service if
one is configured, otherwise do nothing. -/
def RateLimiter.consumeToken (now : ℚ) (name : String) (rl : RateLimiter) : RateLimiter :=
  match rl.buckets name with
  | some b => ⟨fun n => if n = name then some (b.consumeToken now) else rl.buckets n⟩
  | none => rl

/-- enum CacheTier of cache.rs. -/
inductive CacheTier where
  | Memory
  | Redis
  | Disk
deriving DecidableEq, Repr

/-- struct CacheEntry of cache.rs; data is the opaque byte payload. -/
structure CacheEntry where
  data : List Nat
  createdAt : ℚ
  ttl : ℚ
  lastAccessed : ℚ
  accessCount : Nat
  size : Nat
  tier : CacheTier
deriving DecidableEq, Repr

/-- struct CacheStats of cache.rs. The stored hit_rate field is only written
by get_stats. -/
structure CacheStats where
  hits : Nat
  misses : Nat
  evictions : Nat
  entries : Nat
  memoryUsage : Nat
  hitRate : ℚ
deriving DecidableEq, Repr

/-- CacheStats::default(). -/
def emptyStats : CacheStats :=
  { hits := 0, misses := 0, evictions := 0, entries := 0, memoryUsage := 0, hitRate := 0 }

/-- struct MemoryCache of cache.rs: entries map, LRU access_order vector,
max_entries bound, statistics. -/
structure MemoryCache where
  entries : List (String × CacheEntry)
  accessOrder : List String
  maxEntries : Nat
  stats : CacheStats
deriving DecidableEq, Repr

/-- MemoryCache::new(max_entries). -/
def emptyCache (maxE : Nat) : MemoryCache :=
  { entries := [], accessOrder := [], maxEntries := maxE, stats := emptyStats }

/-- Lookup in the entries map. -/
def lookupEntry (key : String) : List (String × CacheEntry) → Option CacheEntry
  | [] => none
  | (k, e) :: rest => if k = key then some e else lookupEntry key rest

/-- Removal from the entries map (HashMap::remove). -/
def eraseEntry (key : String) : List (String × CacheEntry) → List (String × CacheEntry)
  | [] => []
  | p :: rest => if p.1 = key then eraseEntry key rest else p :: eraseEntry key rest

/-- HashMap::contains_key. -/
def containsKey (key : String) (l : List (String × CacheEntry)) : Bool :=
  (lookupEntry key l).isSome

/-- Overwriting insertion into the entries map (HashMap::insert). -/
def insertEntry (key : String) (e : CacheEntry) (l : List (String × CacheEntry)) :
    List (String × CacheEntry) :=
  (key, e) :: eraseEntry key l

/-- Sum of the size fields of the stored entries. -/
def sumSizes (l : List (String × CacheEntry)) : Nat :=
  (l.map (fun p => p.2.size)).sum

/-- CacheEntry::is_expired: created_at.elapsed() > ttl, with elapsed
saturating at zero. -/
def CacheEntry.isExpired (now : ℚ) (e : CacheEntry) : Bool :=
  decide (e.ttl < elapsedSince now e.createdAt)

/-- MemoryCache::get: on an expired entry, remove it from the map and the
access order and count a miss (without touching entries/memory_usage stats);
on a live entry, bump last_accessed and access_count, move the key to the
most-recently-used end, count a hit, and return the updated entry; on an
absent key, count a miss. -/
def MemoryCache.get (now : ℚ) (key : String) (c : MemoryCache) :
    Option CacheEntry × MemoryCache :=
  match lookupEntry key c.entries with
  | some entry =>
    if entry.isExpired now then
      (none,
        { c with
            entries := eraseEntry key c.entries
            accessOrder := c.accessOrder.filter (fun k => !(k == key))
            stats := { c.stats with misses := c.stats.misses + 1 } })
    else
      let e := { entry with lastAccessed := now, accessCount := entry.accessCount + 1 }
      (some e,
        { c with
            entries := insertEntry key e c.entries
            accessOrder := c.accessOrder.filter (fun k => !(k == key)) ++ [key]
            stats := { c.stats with hits := c.stats.hits + 1 } })
  | none =>
    (none, { c with stats := { c.stats with misses := c.stats.misses + 1 } })

/-- MemoryCache::evict_lru: take the first key of access_order; remove it from
the entries map; if it was indeed stored, also pop it from access_order, count
an eviction and subtract its size from memory_usage (saturating). -/
def MemoryCache.evictLru (c : MemoryCache) : MemoryCache :=
  match c.accessOrder.head? with
  | none => c
  | some lruKey =>
    match lookupEntry lruKey c.entries with
    | none => { c with entries := eraseEntry lruKey c.entries }
    | some entry =>
      { c with
          entries := eraseEntry lruKey c.entries
          accessOrder := c.accessOrder.tail
          stats := { c.stats with
                       evictions := c.stats.evictions + 1
                       memoryUsage := c.stats.memoryUsage - entry.size } }

/-- The while loop of MemoryCache::set, with explicit fuel: while
entries.len() >= max_entries, evict_lru. A result of none for every fuel
value models non-termination of the Rust loop. -/
def MemoryCache.setLoop : Nat → MemoryCache → Option MemoryCache
  | 0, _ => none
  | fuel + 1, c =>
    if c.maxEntries ≤ c.entries.length then MemoryCache.setLoop fuel c.evictLru
    else some c

/-- The CacheEntry built at the top of MemoryCache::set: fresh creation and
access times, zero access count, size = byte length of the data. -/
def mkEntry (now : ℚ) (data : List Nat) (ttl : ℚ) : CacheEntry :=
  { data := data, createdAt := now, ttl := ttl, lastAccessed := now,
    accessCount := 0, size := data.length, tier := CacheTier.Memory }

/-- First step of MemoryCache::set: if the key is already present, remove it
from access_order (the entries map keeps the old entry until the final
insert). -/
def MemoryCache.unlink (key : String) (c : MemoryCache) : MemoryCache :=
  if containsKey key c.entries then
    { c with accessOrder := c.accessOrder.filter (fun k => !(k == key)) }
  else c

/-- Last step of MemoryCache::set: insert the new entry, append the key to
access_order, set the entries statistic to the new map size and add the data
length to memory_usage (the size of an overwritten old entry is never
subtracted). -/
def MemoryCache.finishSet (now : ℚ) (key : String) (data : List Nat) (ttl : ℚ)
    (c2 : MemoryCache) : MemoryCache :=
  { c2 with
      entries := insertEntry key (mkEntry now data ttl) c2.entries
      accessOrder := c2.accessOrder ++ [key]
      stats := { c2.stats with
                   entries := (insertEntry key (mkEntry now data ttl) c2.entries).length
                   memoryUsage := c2.stats.memoryUsage + data.length } }

/-- MemoryCache::set: unlink a present key from the access order, run the
eviction loop, then insert the new entry. -/
def MemoryCache.set (fuel : Nat) (now : ℚ) (key : String) (data : List Nat) (ttl : ℚ)
    (c : MemoryCache) : Option MemoryCache :=
  (MemoryCache.setLoop fuel (MemoryCache.unlink key c)).map
    (MemoryCache.finishSet now key data ttl)

/-- MemoryCache::remove: delete the entry if present, fix access_order, set
the entries statistic and subtract the entry size from memory_usage
(saturating). Returns whether an entry was removed. -/
def MemoryCache.remove (key : String) (c : MemoryCache) : Bool × MemoryCache :=
  match lookupEntry key c.entries with
  | some entry =>
    (true,
      { c with
          entries := eraseEntry key c.entries
          accessOrder := c.accessOrder.filter (fun k => !(k == key))
          stats := { c.stats with
                       entries := (eraseEntry key c.entries).length
                       memoryUsage := c.stats.memoryUsage - entry.size } })
  | none => (false, c)

/-- MemoryCache::clear. -/
def MemoryCache.clear (c : MemoryCache) : MemoryCache :=
  { c with entries := [], accessOrder := [], stats := emptyStats }

/-- CacheService::get_stats: clone the statistics and derive hit_rate as
hits / (hits + misses) when there have been requests, else 0. -/
def getStats (c : MemoryCache) : CacheStats :=
  let totalRequests := c.stats.hits + c.stats.misses
  { c.stats with
      hitRate :=
        if 0 < totalRequests then (c.stats.hits : ℚ) / (totalRequests : ℚ) else 0 }

/-- Concrete bucket used to exercise the check decision: one token left,
last request at time 0, min_interval 1. -/
def bw1 : TokenBucket :=
  { capacity := 10, tokens := 1, refillRate := 1, lastRefill := 2, minInterval := 1,
    lastRequest := some 0 }

/-- Concrete bucket used to exercise the invariant: full bucket. -/
def bw2 : TokenBucket :=
  { capacity := 2, tokens := 2, refillRate := 2, lastRefill := 0, minInterval := 0,
    lastRequest := none }

/-- Concrete operation sequence used to exercise the invariant. -/
def opsW : List BucketOp :=
  [BucketOp.check 1, BucketOp.consume 1, BucketOp.consume 1, BucketOp.check 1,
    BucketOp.statusQuery 2, BucketOp.refillNow 3, BucketOp.resetNow 4]

/-- Concrete bucket used to exercise the refill formula: 1 token of 40,
refill rate 4 per second. -/
def bw3 : TokenBucket :=
  { capacity := 40, tokens := 1, refillRate := 4, lastRefill := 0, minInterval := 0,
    lastRequest := none }

/-- A limiter with no configured buckets. -/
def rlEmpty : RateLimiter :=
  ⟨fun _ => none⟩

/-- Bucket with two tokens but a positive min_interval and refill rate 1;
three serialized callers at instant 0 observe Allowed, Delayed, Delayed. -/
def b6 : TokenBucket :=
  { capacity := 2, tokens := 2, refillRate := 1, lastRefill := 0, minInterval := 1,
    lastRequest := none }

/-- Bucket with two tokens and min_interval zero, for the drain witness. -/
def b6w : TokenBucket :=
  { capacity := 2, tokens := 2, refillRate := 1, lastRefill := 0, minInterval := 0,
    lastRequest := none }

/-- Cache state built by inserting key k with ttl 5 at time 0 into an empty
cache with room for 10 entries. -/
def c4st : Option MemoryCache :=
  MemoryCache.set 1 0 "k" [7] 5 (emptyCache 10)

/-- Concrete one-entry cache used as witness for the TTL contract. -/
def eW4 : CacheEntry :=
  { data := [7], createdAt := 0, ttl := 5, lastAccessed := 0, accessCount := 0,
    size := 1, tier := CacheTier.Memory }

/-- One-entry cache holding eW4 under key k. -/
def cW4 : MemoryCache :=
  { entries := [("k", eW4)], accessOrder := ["k"], maxEntries := 10, stats := emptyStats }

/-- Cache of capacity 2 filled with keys a and b, built by two inserts. -/
def c5a : Option MemoryCache :=
  (MemoryCache.set 3 0 "a" [1] 100 (emptyCache 2)).bind (MemoryCache.set 3 0 "b" [2] 100)

/-- The same cache after re-setting the already present key b. -/
def c5b : Option MemoryCache :=
  c5a.bind (MemoryCache.set 3 1 "b" [3] 100)

/-- The entry produced by set("a", [1], ttl 5) at time 0. -/
def eW5 : CacheEntry :=
  { data := [1], createdAt := 0, ttl := 5, lastAccessed := 0, accessCount := 0,
    size := 1, tier := CacheTier.Memory }

/-- The cache state produced by that set on an empty cache of capacity 2. -/
def cW5 : MemoryCache :=
  { entries := [("a", eW5)], accessOrder := ["a"], maxEntries := 2,
    stats := { hits := 0, misses := 0, evictions := 0, entries := 1, memoryUsage := 1,
               hitRate := 0 } }

/-- Cache with 3 bytes stored under key a, built by one insert. -/
def c7a : Option MemoryCache :=
  MemoryCache.set 11 0 "a" [1, 2, 3] 100 (emptyCache 10)

/-- The same cache after overwriting key a with a 1 byte payload. -/
def c7b : Option MemoryCache :=
  c7a.bind (MemoryCache.set 11 0 "a" [7] 100)

/-- Concrete two-entry cache used as witness for size accounting. -/
def cW7 : MemoryCache :=
  { entries := [("a", eW4), ("b", eW5)], accessOrder := ["a", "b"], maxEntries := 10,
    stats := { hits := 0, misses := 0, evictions := 0, entries := 2, memoryUsage := 2,
               hitRate := 0 } }

/-- Concrete cache with one hit and one miss recorded. -/
def cW8 : MemoryCache :=
  { entries := [], accessOrder := [], maxEntries := 5,
    stats := { hits := 1, misses := 1, evictions := 0, entries := 0, memoryUsage := 0,
               hitRate := 0 } }

/-- Rat.floor agrees with the mathematical floor. -/
theorem ratFloor_eq_intFloor (q : ℚ) : q.floor = ⌊q⌋ := by
  rw [Rat.floor_def', Rat.floor_def]

/-- floorNat is the mathematical floor mapped into Nat. -/
theorem floorNat_eq (q : ℚ) : floorNat q = (⌊q⌋).toNat := by
  rw [floorNat, ratFloor_eq_intFloor]

/-- Saturating elapsed time is plain subtraction when time is monotone. -/
theorem elapsedSince_of_le {t now : ℚ} (h : t ≤ now) : elapsedSince now t = now - t := by
  simp [elapsedSince, h]

/-- Refill does not change the capacity. -/
theorem refill_capacity (now : ℚ) (b : TokenBucket) :
    (b.refill now).capacity = b.capacity := by
  unfold TokenBucket.refill
  split <;> rfl

/-- Refill does not change the last request timestamp. -/
theorem refill_lastRequest (now : ℚ) (b : TokenBucket) :
    (b.refill now).lastRequest = b.lastRequest := by
  unfold TokenBucket.refill
  split <;> rfl

/-- Refill keeps the token count within capacity. -/
theorem refill_tokens_le (now : ℚ) (b : TokenBucket) (h : b.tokens ≤ b.capacity) :
    (b.refill now).tokens ≤ b.capacity := by
  unfold TokenBucket.refill
  split
  · exact min_le_right _ _
  · exact h

/-- Every bucket operation preserves the capacity. -/
theorem apply_capacity (op : BucketOp) (b : TokenBucket) :
    (op.apply b).capacity = b.capacity := by
  cases op with
  | check now => exact refill_capacity now b
  | consume now =>
    show (b.consumeToken now).capacity = b.capacity
    unfold TokenBucket.consumeToken
    split <;> rfl
  | refillNow now => exact refill_capacity now b
  | resetNow now => rfl
  | statusQuery now => exact refill_capacity now b

/-- Every bucket operation keeps the token count within the capacity. -/
theorem apply_tokens_le (op : BucketOp) (b : TokenBucket) (h : b.tokens ≤ b.capacity) :
    (op.apply b).tokens ≤ b.capacity := by
  cases op with
  | check now => exact refill_tokens_le now b h
  | consume now =>
    show (b.consumeToken now).tokens ≤ b.capacity
    unfold TokenBucket.consumeToken
    split
    · exact le_trans (Nat.sub_le _ _) h
    · exact h
  | refillNow now => exact refill_tokens_le now b h
  | resetNow now => exact le_refl _
  | statusQuery now => exact refill_tokens_le now b h

/-- C2: for every TokenBucket and every sequence of operations
(check_request, consume_token, refill, reset, status queries), the invariant
0 <= tokens <= capacity holds after each operation; the lower bound holds
because tokens is a natural number and consume_token only decrements a
positive count, and the upper bound is preserved by every operation. -/
theorem bucket_invariant (ops : List BucketOp) (b : TokenBucket)
    (h : b.tokens ≤ b.capacity) :
    (runOps ops b).tokens ≤ (runOps ops b).capacity := by
  induction ops generalizing b with
  | nil => exact h
  | cons op rest ih =>
    have hstep : (op.apply b).tokens ≤ (op.apply b).capacity := by
      rw [apply_capacity]
      exact apply_tokens_le op b h
    exact ih (op.apply b) hstep

/-- Witness for C2 at a concrete bucket and operation sequence. -/
theorem bucket_invariant_witness :
    bw2.tokens ≤ bw2.capacity ∧ (runOps opsW bw2).tokens ≤ (runOps opsW bw2).capacity :=
  ⟨by decide, bucket_invariant opsW bw2 (by decide)⟩

/-- C3: on each check/consume, refill sets tokens to
min(capacity, tokens + floor(elapsed_seconds * refill_rate)) with
elapsed_seconds = now - last_refill, and sets last_refill to now;
consequently between two instants with no consumption the token count never
decreases, capped at capacity. -/
theorem refill_formula (b : TokenBucket) (now : ℚ)
    (hcap : b.tokens ≤ b.capacity) (hmono : b.lastRefill ≤ now) :
    (b.refill now).tokens
        = min b.capacity (b.tokens + (⌊(now - b.lastRefill) * b.refillRate⌋).toNat)
      ∧ (b.refill now).lastRefill = now
      ∧ b.tokens ≤ (b.refill now).tokens
      ∧ (b.refill now).tokens ≤ b.capacity := by
  have he : elapsedSince now b.lastRefill = now - b.lastRefill := elapsedSince_of_le hmono
  unfold TokenBucket.refill
  rw [he]
  split
  · refine ⟨?_, rfl, ?_, ?_⟩
    · show min (b.tokens + floorNat ((now - b.lastRefill) * b.refillRate)) b.capacity = _
      rw [floorNat_eq, min_comm]
    · exact le_min (Nat.le_add_right _ _) hcap
    · exact min_le_right _ _
  · rename_i hnot
    have hz : now - b.lastRefill = 0 := le_antisymm (not_lt.mp hnot) (sub_nonneg.mpr hmono)
    have hn : now = b.lastRefill := by linarith [sub_eq_zero.mp hz]
    refine ⟨?_, hn.symm, le_refl _, hcap⟩
    rw [hz, zero_mul, Int.floor_zero, Int.toNat_zero, Nat.add_zero,
      min_eq_right hcap]

/-- Witness for C3 at a concrete bucket: after 1 second at rate 4, the
token count rises from 1 to 5. -/
theorem refill_formula_witness :
    bw3.tokens ≤ bw3.capacity ∧ bw3.lastRefill ≤ (1 : ℚ) ∧
    (bw3.refill 1).tokens
      = min bw3.capacity (bw3.tokens + (⌊((1 : ℚ) - bw3.lastRefill) * bw3.refillRate⌋).toNat) :=
  ⟨by decide, by norm_num [bw3], (refill_formula bw3 1 (by decide) (by norm_num [bw3])).1⟩

/-- C1: a single check_request call first refills, then returns exactly the
decision the specification prescribes: Delayed with
delay = min_interval - (now - last_request) when last_request is set and
now - last_request < min_interval; otherwise Allowed when tokens > 0;
otherwise Denied with retry_after = 1 / refill_rate seconds. The returned
state is exactly the refilled bucket, so the decision spends no token and
leaves the (post-refill) token count unchanged. -/
theorem checkRequest_matches_spec (b : TokenBucket) (now : ℚ)
    (hreq : ∀ t, b.lastRequest = some t → t ≤ now) :
    (b.checkRequest now).1 = checkDecisionSpec now b
      ∧ (b.checkRequest now).2 = b.refill now
      ∧ (b.checkRequest now).2.tokens = (b.refill now).tokens := by
  refine ⟨?_, rfl, rfl⟩
  show TokenBucket.postRefillDecision now (b.refill now) = specDecisionAfterRefill now (b.refill now)
  cases hr : (b.refill now).lastRequest with
  | none => simp [TokenBucket.postRefillDecision, specDecisionAfterRefill, hr]
  | some t =>
    have ht : t ≤ now := by
      apply hreq
      rw [← refill_lastRequest now b]
      exact hr
    simp [TokenBucket.postRefillDecision, specDecisionAfterRefill, hr,
      elapsedSince_of_le ht]

/-- Witness for C1 at a concrete bucket whose last request is 2 seconds in
the past. -/
theorem checkRequest_matches_spec_witness :
    (∀ t, bw1.lastRequest = some t → t ≤ (2 : ℚ)) ∧
    (bw1.checkRequest 2).1 = checkDecisionSpec 2 bw1 :=
  ⟨fun t ht => by
      simp only [bw1, Option.some.injEq] at ht
      rw [← ht]
      norm_num,
    (checkRequest_matches_spec bw1 2 (fun t ht => by
      simp only [bw1, Option.some.injEq] at ht
      rw [← ht]
      norm_num)).1⟩

/-- C10: for a service name with no configured bucket, check_rate_limit
returns Allowed with the limiter unchanged, and consume_token leaves the
limiter unchanged: unconfigured resources are never throttled. -/
theorem unconfigured_fail_open (rl : RateLimiter) (name : String) (now : ℚ)
    (h : rl.buckets name = none) :
    rl.checkRateLimit now name = (RateLimitResult.Allowed, rl)
      ∧ rl.consumeToken now name = rl := by
  unfold RateLimiter.checkRateLimit RateLimiter.consumeToken
  rw [h]
  exact ⟨rfl, rfl⟩

/-- Witness for C10 on the empty limiter. -/
theorem unconfigured_fail_open_witness :
    rlEmpty.buckets "tmdb" = none ∧
    rlEmpty.checkRateLimit 0 "tmdb" = (RateLimitResult.Allowed, rlEmpty) ∧
    rlEmpty.consumeToken 0 "tmdb" = rlEmpty :=
  ⟨rfl, (unconfigured_fail_open rlEmpty "tmdb" 0 rfl).1,
    (unconfigured_fail_open rlEmpty "tmdb" 0 rfl).2⟩

/-- Refill is the identity when no time has elapsed since the last refill. -/
theorem refill_id_of_eq (now : ℚ) (b : TokenBucket) (h : b.lastRefill = now) :
    b.refill now = b := by
  unfold TokenBucket.refill
  rw [h]
  simp [elapsedSince]

/-- Under a zero min_interval, a past last request and no elapsed time, a
check is decided purely by token availability and mutates nothing. -/
theorem checkRequest_noDelay (now : ℚ) (b : TokenBucket)
    (hmin : b.minInterval = 0) (hlr : b.lastRefill = now)
    (hreq : ∀ t, b.lastRequest = some t → t ≤ now) :
    b.checkRequest now =
      (if 0 < b.tokens then RateLimitResult.Allowed
       else RateLimitResult.Denied (1 / b.refillRate), b) := by
  have hr : b.refill now = b := refill_id_of_eq now b hlr
  unfold TokenBucket.checkRequest
  rw [hr]
  cases hl : b.lastRequest with
  | none => simp [TokenBucket.postRefillDecision, hl]
  | some t =>
    have ht : t ≤ now := hreq t hl
    have hcond : ¬ (elapsedSince now t < b.minInterval) := by
      rw [elapsedSince_of_le ht, hmin]
      exact not_lt.mpr (sub_nonneg.mpr ht)
    simp [TokenBucket.postRefillDecision, hl, hcond]

/-- Consuming from a positive bucket decrements and stamps the request. -/
theorem consumeToken_pos (now : ℚ) (b : TokenBucket) (h : 0 < b.tokens) :
    b.consumeToken now = { b with tokens := b.tokens - 1, lastRequest := some now } := by
  unfold TokenBucket.consumeToken
  rw [if_pos h]

/-- One atomic check-and-consume step under the drain hypotheses. -/
theorem checkAndConsume_drain (now : ℚ) (b : TokenBucket)
    (hmin : b.minInterval = 0) (hlr : b.lastRefill = now)
    (hreq : ∀ t, b.lastRequest = some t → t ≤ now) :
    b.checkAndConsume now =
      if 0 < b.tokens then
        (RateLimitResult.Allowed, { b with tokens := b.tokens - 1, lastRequest := some now })
      else
        (RateLimitResult.Denied (1 / b.refillRate), b) := by
  unfold TokenBucket.checkAndConsume
  rw [checkRequest_noDelay now b hmin hlr hreq]
  by_cases h : 0 < b.tokens
  · rw [if_pos h, if_pos h]
    show (RateLimitResult.Allowed, b.consumeToken now) = _
    rw [consumeToken_pos now b h]
  · rw [if_neg h, if_neg h]

/-- Each call contributes exactly one observed decision. -/
theorem runCalls_length (now : ℚ) : ∀ (n : Nat) (b : TokenBucket),
    (TokenBucket.runCalls now n b).1.length = n := by
  intro n
  induction n with
  | zero => intro b; rfl
  | succ m ih =>
    intro b
    show ((b.checkAndConsume now).1
        :: (TokenBucket.runCalls now m (b.checkAndConsume now).2).1).length = m + 1
    rw [List.length_cons, ih]

/-- Unfolding lemma for one serialized call. -/
theorem runCalls_succ (now : ℚ) (n : Nat) (b : TokenBucket) :
    TokenBucket.runCalls now (n + 1) b =
      ((b.checkAndConsume now).1 :: (TokenBucket.runCalls now n (b.checkAndConsume now).2).1,
        (TokenBucket.runCalls now n (b.checkAndConsume now).2).2) := rfl

/-- n serialized same-instant calls drain min(tokens, n) tokens: that many
Allowed, the rest Denied. -/
theorem runCalls_drain (now : ℚ) : ∀ (n : Nat) (b : TokenBucket),
    b.minInterval = 0 → b.lastRefill = now → (∀ t, b.lastRequest = some t → t ≤ now) →
    countAllowed (TokenBucket.runCalls now n b).1 = min b.tokens n ∧
    countDenied (TokenBucket.runCalls now n b).1 = n - min b.tokens n := by
  intro n
  induction n with
  | zero =>
    intro b _ _ _
    simp [TokenBucket.runCalls, countAllowed, countDenied]
  | succ m ih =>
    intro b hmin hlr hreq
    have hstep := checkAndConsume_drain now b hmin hlr hreq
    by_cases hp : 0 < b.tokens
    · rw [if_pos hp] at hstep
      obtain ⟨k, hk⟩ : ∃ k, b.tokens = k + 1 :=
        ⟨b.tokens - 1, (Nat.succ_pred_eq_of_pos hp).symm⟩
      have ih2 := ih { b with tokens := b.tokens - 1, lastRequest := some now }
        hmin hlr (fun t ht => by
          simp only [Option.some.injEq] at ht
          rw [← ht])
      rw [runCalls_succ, hstep]
      simp only [countAllowed, countDenied]
      rw [ih2.1, ih2.2]
      simp only [hk, Nat.add_sub_cancel]
      constructor
      · rw [Nat.succ_min_succ]
      · rw [Nat.succ_min_succ]
        omega
    · rw [if_neg hp] at hstep
      have hz : b.tokens = 0 := Nat.eq_zero_of_not_pos hp
      have ihb := ih b hmin hlr hreq
      rw [runCalls_succ, hstep]
      simp only [countAllowed, countDenied]
      refine ⟨?_, ?_⟩
      · rw [ihb.1, hz]
        simp [Nat.zero_min]
      · rw [ihb.2, hz]
        simp [Nat.zero_min]

/-- C6 (amended): for a bucket with min_interval zero holding exactly k
tokens, N > k serialized check-and-consume calls at one instant (the check
and consume of each call forming one atomic step, as they do under the
exclusive borrow in acquire_permit) produce exactly k Allowed and N - k
Denied outcomes: no two callers can spend the last token. With a positive
min_interval the first consumption makes later same-instant callers Delayed,
so fewer than k may observe Allowed (see the counterexample). -/
theorem atomic_drain_exact (now : ℚ) (n : Nat) (b : TokenBucket)
    (hmin : b.minInterval = 0) (hlr : b.lastRefill = now)
    (hreq : ∀ t, b.lastRequest = some t → t ≤ now) (hk : b.tokens < n) :
    countAllowed (TokenBucket.runCalls now n b).1 = b.tokens
      ∧ countDenied (TokenBucket.runCalls now n b).1 = n - b.tokens
      ∧ (TokenBucket.runCalls now n b).1.length = n := by
  have h := runCalls_drain now n b hmin hlr hreq
  rw [min_eq_left (le_of_lt hk)] at h
  exact ⟨h.1, h.2, runCalls_length now n b⟩

/-- Witness for C6 (amended): 3 callers against 2 tokens yield exactly 2
Allowed. -/
theorem atomic_drain_exact_witness :
    b6w.minInterval = 0 ∧ b6w.lastRefill = (0 : ℚ) ∧ b6w.tokens < 3 ∧
    countAllowed (TokenBucket.runCalls 0 3 b6w).1 = b6w.tokens :=
  ⟨rfl, rfl, by decide,
    (atomic_drain_exact 0 3 b6w rfl rfl
      (fun t ht => by simp [b6w] at ht) (by decide)).1⟩

/-- C6 counterexample: a bucket holding exactly 2 tokens with a positive
min_interval; of 3 serialized same-instant callers only 1 observes Allowed
(the others are Delayed), so the exactly-k-Allowed claim fails. -/
theorem concurrency_exact_k_cex :
    b6.tokens = 2 ∧ (2 : Nat) < 3 ∧
    countAllowed (TokenBucket.runCalls 0 3 b6).1 ≠ 2 := by
  refine ⟨rfl, by decide, ?_⟩
  have h : countAllowed (TokenBucket.runCalls 0 3 b6).1 = 1 := by
    norm_num [TokenBucket.runCalls, TokenBucket.checkAndConsume, TokenBucket.checkRequest,
      TokenBucket.refill, TokenBucket.postRefillDecision, TokenBucket.consumeToken,
      elapsedSince, floorNat, countAllowed, b6]
  omega

/-- After erasing a key it can no longer be looked up. -/
theorem lookupEntry_eraseEntry_self (key : String) :
    ∀ l, lookupEntry key (eraseEntry key l) = none := by
  intro l
  induction l with
  | nil => rfl
  | cons p rest ih =>
    by_cases h : p.1 = key
    · simp [eraseEntry, h, ih]
    · simp [eraseEntry, lookupEntry, h, ih]

/-- Erasing one key does not affect lookups of another key. -/
theorem lookupEntry_eraseEntry_ne {k key : String} (h : k ≠ key) :
    ∀ l, lookupEntry k (eraseEntry key l) = lookupEntry k l := by
  intro l
  induction l with
  | nil => rfl
  | cons p rest ih =>
    by_cases hp : p.1 = key
    · have hpk : p.1 ≠ k := fun hh => h ((hh.symm.trans hp))
      simp [eraseEntry, lookupEntry, hp, hpk, Ne.symm h, ih]
    · by_cases hk : p.1 = k
      · simp [eraseEntry, lookupEntry, hp, hk, h, Ne.symm h]
      · simp [eraseEntry, lookupEntry, hp, hk, ih]

/-- Erasing never lengthens the map. -/
theorem eraseEntry_length_le (key : String) :
    ∀ l, (eraseEntry key l).length ≤ l.length := by
  intro l
  induction l with
  | nil => exact le_refl 0
  | cons p rest ih =>
    by_cases h : p.1 = key
    · simp only [eraseEntry, h, if_pos]
      exact le_trans ih (Nat.le_succ _)
    · simp only [eraseEntry, h, if_neg, not_false_iff, List.length_cons]
      exact Nat.succ_le_succ ih

/-- Erasing a stored key strictly shrinks the map. -/
theorem eraseEntry_length_lt {key : String} {e : CacheEntry} :
    ∀ l, lookupEntry key l = some e → (eraseEntry key l).length < l.length := by
  intro l
  induction l with
  | nil => intro h; cases h
  | cons p rest ih =>
    intro h
    by_cases hp : p.1 = key
    · simp only [eraseEntry, hp, if_pos, List.length_cons]
      exact Nat.lt_succ_of_le (eraseEntry_length_le key rest)
    · simp only [lookupEntry, hp, if_neg, not_false_iff] at h
      simp only [eraseEntry, hp, if_neg, not_false_iff, List.length_cons]
      exact Nat.succ_lt_succ (ih h)

/-- Erasing an absent key is the identity. -/
theorem eraseEntry_of_lookup_none {key : String} :
    ∀ l, lookupEntry key l = none → eraseEntry key l = l := by
  intro l
  induction l with
  | nil => intro _; rfl
  | cons p rest ih =>
    intro h
    by_cases hp : p.1 = key
    · simp [lookupEntry, hp] at h
    · simp only [lookupEntry, hp, if_neg, not_false_iff] at h
      simp [eraseEntry, hp, ih h]

/-- A key that can be looked up is among the stored keys. -/
theorem lookupEntry_some_mem {key : String} {v : CacheEntry} :
    ∀ l, lookupEntry key l = some v → key ∈ l.map Prod.fst := by
  intro l
  induction l with
  | nil => intro h; cases h
  | cons q qs ih =>
    intro h
    by_cases hq : q.1 = key
    · rw [List.map_cons, ← hq]
      exact List.mem_cons_self _ _
    · simp only [lookupEntry, hq, if_neg, not_false_iff] at h
      rw [List.map_cons]
      exact List.mem_cons_of_mem _ (ih h)

/-- With duplicate-free keys, erasing a stored key shrinks the map by
exactly one. -/
theorem eraseEntry_length_nodup {key : String} {e : CacheEntry} :
    ∀ l, (l.map Prod.fst).Nodup → lookupEntry key l = some e →
      (eraseEntry key l).length + 1 = l.length := by
  intro l
  induction l with
  | nil => intro _ h; cases h
  | cons p rest ih =>
    intro hnd h
    rw [List.map_cons, List.nodup_cons] at hnd
    by_cases hp : p.1 = key
    · have hnm : key ∉ rest.map Prod.fst := hp ▸ hnd.1
      have herase : eraseEntry key rest = rest := by
        cases hl : lookupEntry key rest with
        | none => exact eraseEntry_of_lookup_none rest hl
        | some v => exact absurd (lookupEntry_some_mem rest hl) hnm
      simp [eraseEntry, hp, herase]
    · simp only [lookupEntry, hp, if_neg, not_false_iff] at h
      simp only [eraseEntry, hp, if_neg, not_false_iff, List.length_cons]
      rw [← ih hnd.2 h]

/-- Looking up the freshly inserted key yields the new entry. -/
theorem lookupEntry_insertEntry_self (key : String) (e : CacheEntry)
    (l : List (String × CacheEntry)) :
    lookupEntry key (insertEntry key e l) = some e := by
  simp [insertEntry, lookupEntry]

/-- Overwriting insertion does not affect lookups of another key. -/
theorem lookupEntry_insertEntry_ne {k key : String} (h : k ≠ key) (e : CacheEntry)
    (l : List (String × CacheEntry)) :
    lookupEntry k (insertEntry key e l) = lookupEntry k l := by
  simp only [insertEntry, lookupEntry, if_neg (fun hh : key = k => h hh.symm)]
  exact lookupEntry_eraseEntry_ne h l

/-- Insertion grows the map by at most one. -/
theorem insertEntry_length_le (key : String) (e : CacheEntry)
    (l : List (String × CacheEntry)) :
    (insertEntry key e l).length ≤ l.length + 1 := by
  simp only [insertEntry, List.length_cons]
  exact Nat.succ_le_succ (eraseEntry_length_le key l)

/-- Inserting an absent key grows the map by exactly one. -/
theorem insertEntry_length_of_none {key : String} {l : List (String × CacheEntry)}
    (h : lookupEntry key l = none) (e : CacheEntry) :
    (insertEntry key e l).length = l.length + 1 := by
  simp [insertEntry, eraseEntry_of_lookup_none l h]

/-- C4 (amended): an entry stored with creation time t0 and ttl d is a Hit
(with last_accessed and access_count updated, and the hit counter bumped)
for a lookup at any t with t <= t0 + d, and a Miss for any lookup at
t > t0 + d, in which case the entry is physically removed and the miss
counter incremented: an expired entry is never returned even if still
physically present. The boundary instant t = t0 + d is a Hit, because
is_expired uses a strict comparison (elapsed > ttl). -/
theorem cache_ttl_amended (c : MemoryCache) (key : String) (now : ℚ) (e : CacheEntry)
    (hfound : lookupEntry key c.entries = some e) (hmono : e.createdAt ≤ now) :
    (e.createdAt + e.ttl < now →
        (c.get now key).1 = none
          ∧ lookupEntry key (c.get now key).2.entries = none
          ∧ (c.get now key).2.stats.misses = c.stats.misses + 1) ∧
    (now ≤ e.createdAt + e.ttl →
        (c.get now key).1
            = some { e with lastAccessed := now, accessCount := e.accessCount + 1 }
          ∧ (c.get now key).2.stats.hits = c.stats.hits + 1) := by
  have he : elapsedSince now e.createdAt = now - e.createdAt := elapsedSince_of_le hmono
  constructor
  · intro hlt
    have hex : e.isExpired now = true := by
      simp only [CacheEntry.isExpired, he, decide_eq_true_eq]
      linarith
    simp [MemoryCache.get, hfound, hex, lookupEntry_eraseEntry_self]
  · intro hle
    have hex : e.isExpired now = false := by
      simp only [CacheEntry.isExpired, he, decide_eq_false_iff_not]
      exact not_lt.mpr (by linarith)
    simp [MemoryCache.get, hfound, hex]

/-- Witness for C4 (amended) on a one-entry cache: at time 6 > 0 + 5 the
lookup misses and purges the entry. -/
theorem cache_ttl_amended_witness :
    lookupEntry "k" cW4.entries = some eW4 ∧ eW4.createdAt ≤ (6 : ℚ) ∧
    eW4.createdAt + eW4.ttl < (6 : ℚ) ∧
    (cW4.get 6 "k").1 = none ∧ lookupEntry "k" (cW4.get 6 "k").2.entries = none :=
  ⟨rfl, by norm_num [eW4], by norm_num [eW4],
    ((cache_ttl_amended cW4 "k" 6 eW4 rfl (by norm_num [eW4])).1 (by norm_num [eW4])).1,
    ((cache_ttl_amended cW4 "k" 6 eW4 rfl (by norm_num [eW4])).1 (by norm_num [eW4])).2.1⟩

/-- C4 counterexample: the claim says a lookup at any t >= t0 + d is a Miss,
but an entry inserted at time 0 with ttl 5 is still a Hit at exactly t = 5,
because is_expired tests elapsed > ttl rather than elapsed >= ttl. -/
theorem cache_ttl_claim_cex :
    ((0 : ℚ) + 5 ≤ 5) ∧
    c4st.map (fun c => ((c.get 5 "k").1).isSome) = some true := by
  constructor
  · norm_num
  · norm_num [c4st, MemoryCache.set, MemoryCache.unlink, MemoryCache.finishSet, mkEntry,
      MemoryCache.setLoop, MemoryCache.get, emptyCache, emptyStats, containsKey,
      lookupEntry, insertEntry, eraseEntry, CacheEntry.isExpired, elapsedSince]

/-- C8: get_stats derives hit_rate as h / (h + m) when h + m > 0 and as
exactly 0 when no requests have been recorded. -/
theorem hit_rate_spec (c : MemoryCache) :
    (0 < c.stats.hits + c.stats.misses →
        (getStats c).hitRate
          = (c.stats.hits : ℚ) / ((c.stats.hits : ℚ) + (c.stats.misses : ℚ))) ∧
    (c.stats.hits + c.stats.misses = 0 → (getStats c).hitRate = 0) := by
  constructor
  · intro h
    simp only [getStats]
    rw [if_pos h, Nat.cast_add]
  · intro h
    simp only [getStats]
    rw [if_neg (by omega)]

/-- Witness for C8: one hit and one miss give hit rate 1/2. -/
theorem hit_rate_spec_witness :
    0 < cW8.stats.hits + cW8.stats.misses ∧
    (getStats cW8).hitRate = (cW8.stats.hits : ℚ) / ((cW8.stats.hits : ℚ) + (cW8.stats.misses : ℚ)) :=
  ⟨by decide, (hit_rate_spec cW8).1 (by decide)⟩

/-- When the access order is empty but the map still reaches the bound, the
eviction loop spins forever: evict_lru removes nothing. -/
theorem setLoop_stuck (c : MemoryCache) (hord : c.accessOrder = [])
    (hfull : c.maxEntries ≤ c.entries.length) :
    ∀ fuel, MemoryCache.setLoop fuel c = none := by
  intro fuel
  induction fuel with
  | zero => rfl
  | succ n ih =>
    have hev : c.evictLru = c := by
      unfold MemoryCache.evictLru
      rw [hord]
      rfl
    show MemoryCache.setLoop (n + 1) c = none
    unfold MemoryCache.setLoop
    rw [if_pos hfull, hev]
    exact ih

/-- C9: MemoryCache::set does not always terminate. With max_entries = 0
every set call loops forever (the eviction loop condition never becomes
false and evict_lru is a no-op on an empty access order), and with
max_entries = 1 overwriting the single stored key also loops forever (the
key is first removed from access_order, after which evict_lru can no longer
shrink the still-full entries map). -/
theorem set_nonterminating :
    (∀ (fuel : Nat) (now ttl : ℚ) (key : String) (data : List Nat),
        MemoryCache.set fuel now key data ttl (emptyCache 0) = none) ∧
    (∀ (fuel : Nat) (now ttl : ℚ) (data : List Nat) (e : CacheEntry) (s : CacheStats),
        MemoryCache.set fuel now "a" data ttl
          { entries := [("a", e)], accessOrder := ["a"], maxEntries := 1, stats := s }
          = none) := by
  constructor
  · intro fuel now ttl key data
    have h0 : containsKey key (emptyCache 0).entries = false := rfl
    have hloop := setLoop_stuck (emptyCache 0) rfl (le_refl 0) fuel
    simp [MemoryCache.set, MemoryCache.unlink, h0, hloop]
  · intro fuel now ttl data e s
    have hc : containsKey "a"
        ({ entries := [("a", e)], accessOrder := ["a"], maxEntries := 1, stats := s }
          : MemoryCache).entries = true := rfl
    have hfil : List.filter (fun k => !(k == "a")) ["a"] = [] := rfl
    have hloop := setLoop_stuck
      { entries := [("a", e)], accessOrder := [], maxEntries := 1, stats := s }
      rfl (le_refl 1) fuel
    simp [MemoryCache.set, MemoryCache.unlink, hc, hfil, hloop]

/-- Unlinking only touches the access order. -/
theorem unlink_entries (key : String) (c : MemoryCache) :
    (c.unlink key).entries = c.entries := by
  unfold MemoryCache.unlink
  split <;> rfl

/-- Unlinking preserves the entry bound. -/
theorem unlink_maxEntries (key : String) (c : MemoryCache) :
    (c.unlink key).maxEntries = c.maxEntries := by
  unfold MemoryCache.unlink
  split <;> rfl

/-- Unlinking preserves the statistics. -/
theorem unlink_stats (key : String) (c : MemoryCache) :
    (c.unlink key).stats = c.stats := by
  unfold MemoryCache.unlink
  split <;> rfl

/-- With room below the bound the eviction loop exits at once. -/
theorem setLoop_room (c : MemoryCache) (h : c.entries.length < c.maxEntries) :
    ∀ fuel, MemoryCache.setLoop (fuel + 1) c = some c := by
  intro fuel
  unfold MemoryCache.setLoop
  rw [if_neg (not_le.mpr h)]

/-- Whenever the eviction loop exits, the map is strictly below the bound. -/
theorem setLoop_some_lt : ∀ (fuel : Nat) (c c2 : MemoryCache),
    MemoryCache.setLoop fuel c = some c2 → c2.entries.length < c2.maxEntries := by
  intro fuel
  induction fuel with
  | zero => intro c c2 h; cases h
  | succ n ih =>
    intro c c2 h
    unfold MemoryCache.setLoop at h
    by_cases hc : c.maxEntries ≤ c.entries.length
    · rw [if_pos hc] at h
      exact ih _ _ h
    · rw [if_neg hc] at h
      obtain rfl : c = c2 := Option.some.inj h
      exact not_le.mp hc

/-- Explicit form of evict_lru when the head of the order is stored. -/
theorem evictLru_spec (c : MemoryCache) (lru : String) (e : CacheEntry)
    (hhead : c.accessOrder.head? = some lru)
    (hlook : lookupEntry lru c.entries = some e) :
    c.evictLru =
      { c with
          entries := eraseEntry lru c.entries
          accessOrder := c.accessOrder.tail
          stats := { c.stats with
                       evictions := c.stats.evictions + 1
                       memoryUsage := c.stats.memoryUsage - e.size } } := by
  unfold MemoryCache.evictLru
  rw [hhead]
  dsimp only
  rw [hlook]

/-- The eviction loop on a full cache whose LRU key is stored evicts exactly
that key and stops. -/
theorem set_evicts_one (c1 : MemoryCache) (lru : String) (e : CacheEntry)
    (hhead : c1.accessOrder.head? = some lru)
    (hlook : lookupEntry lru c1.entries = some e)
    (hfull : c1.maxEntries ≤ c1.entries.length)
    (hdrop : (eraseEntry lru c1.entries).length < c1.maxEntries) :
    MemoryCache.setLoop 2 c1 = some c1.evictLru := by
  have hev := evictLru_spec c1 lru e hhead hlook
  have h1 : c1.evictLru.entries.length < c1.evictLru.maxEntries := by
    rw [hev]
    exact hdrop
  rw [show MemoryCache.setLoop 2 c1
      = if c1.maxEntries ≤ c1.entries.length then MemoryCache.setLoop 1 c1.evictLru
        else some c1 from rfl,
    if_pos hfull,
    show MemoryCache.setLoop 1 c1.evictLru
      = if c1.evictLru.maxEntries ≤ c1.evictLru.entries.length
        then MemoryCache.setLoop 0 c1.evictLru.evictLru else some c1.evictLru from rfl,
    if_neg (not_le.mpr h1)]

/-- The head of the access order with a key filtered out is another key. -/
theorem head_filter_ne (key : String) : ∀ (l : List String) (lru : String),
    (l.filter (fun k => !(k == key))).head? = some lru → lru ≠ key := by
  intro l
  induction l with
  | nil => intro lru h; cases h
  | cons a rest ih =>
    intro lru h
    rw [List.filter_cons] at h
    by_cases ha : a = key
    · have hb : (!(a == key)) = false := by
        rw [beq_iff_eq.mpr ha]
        rfl
      rw [if_neg (by rw [hb]; exact Bool.false_ne_true)] at h
      exact ih lru h
    · have hb : (!(a == key)) = true := by
        rw [beq_eq_false_iff_ne.mpr ha]
        rfl
      rw [if_pos hb, List.head?_cons] at h
      obtain rfl : a = lru := Option.some.inj h
      exact ha

/-- C7 (amended): memory_usage is increased by the byte length of the data on
every insert and decreased by the removed entry size on remove and on LRU
eviction (saturating); but overwriting an existing key does not subtract the
overwritten entry size, and the expiry purge inside get removes the entry
without touching memory_usage, so memory_usage can exceed the sum of the
stored entry sizes. -/
theorem memory_usage_accounting :
    (∀ (key : String) (c : MemoryCache) (e : CacheEntry),
        lookupEntry key c.entries = some e →
        (c.remove key).2.stats.memoryUsage = c.stats.memoryUsage - e.size) ∧
    (∀ (c : MemoryCache) (lru : String) (e : CacheEntry),
        c.accessOrder.head? = some lru → lookupEntry lru c.entries = some e →
        c.evictLru.stats.memoryUsage = c.stats.memoryUsage - e.size) ∧
    (∀ (fuel : Nat) (now ttl : ℚ) (key : String) (data : List Nat) (c : MemoryCache),
        c.entries.length < c.maxEntries →
        (MemoryCache.set (fuel + 1) now key data ttl c).map (fun c2 => c2.stats.memoryUsage)
          = some (c.stats.memoryUsage + data.length)) ∧
    (∀ (now : ℚ) (key : String) (c : MemoryCache) (e : CacheEntry),
        lookupEntry key c.entries = some e → e.isExpired now = true →
        (c.get now key).2.stats.memoryUsage = c.stats.memoryUsage
          ∧ lookupEntry key (c.get now key).2.entries = none) := by
  refine ⟨?_, ?_, ?_, ?_⟩
  · intro key c e h
    simp [MemoryCache.remove, h]
  · intro c lru e hh hl
    rw [evictLru_spec c lru e hh hl]
  · intro fuel now ttl key data c hroom
    have hroom2 : (c.unlink key).entries.length < (c.unlink key).maxEntries := by
      rw [unlink_entries, unlink_maxEntries]
      exact hroom
    have h1 : MemoryCache.setLoop (fuel + 1) (c.unlink key) = some (c.unlink key) :=
      setLoop_room _ hroom2 fuel
    unfold MemoryCache.set
    rw [h1]
    show some (MemoryCache.finishSet now key data ttl (c.unlink key)).stats.memoryUsage = _
    show some ((c.unlink key).stats.memoryUsage + data.length) = _
    rw [unlink_stats]
  · intro now key c e hf hex
    constructor
    · simp [MemoryCache.get, hf, hex]
    · simp [MemoryCache.get, hf, hex, lookupEntry_eraseEntry_self]

/-- Witness for C7 (amended): removing a stored 1 byte entry lowers
memory_usage from 2 to 1. -/
theorem memory_usage_accounting_witness :
    lookupEntry "a" cW7.entries = some eW4 ∧
    (cW7.remove "a").2.stats.memoryUsage = cW7.stats.memoryUsage - eW4.size :=
  ⟨rfl, memory_usage_accounting.1 "a" cW7 eW4 rfl⟩

/-- C7 counterexample: after set("a", 3 bytes) and set("a", 1 byte) the
stats field memory_usage is 4 while the entries actually stored hold 1 byte:
the overwrite leaked the old entry size, so memory_usage does not equal the
sum of the stored byte lengths. -/
theorem usage_sum_cex :
    c7b.map (fun c => (c.stats.memoryUsage, sumSizes c.entries)) = some (4, 1)
      ∧ (4 : Nat) ≠ 1 := by
  refine ⟨?_, by decide⟩
  norm_num [c7b, c7a, MemoryCache.set, MemoryCache.unlink, MemoryCache.finishSet, mkEntry,
    MemoryCache.setLoop, emptyCache, emptyStats, containsKey, lookupEntry, insertEntry,
    eraseEntry, sumSizes, Option.bind]

/-- C5 (amended): every successful set leaves entries.len() <= max_entries;
inserting a new key into a full cache (duplicate-free keys, LRU head stored)
evicts exactly the least-recently-used key, increments the eviction counter,
and keeps the cache at max_entries; setting an already present key in a cache
below capacity evicts nothing; but setting an already present key in a full
cache does evict the least-recently-used other key; and a successful get
moves the key to the most-recently-used end of the access order. -/
theorem lru_eviction_amended :
    (∀ (fuel : Nat) (now ttl : ℚ) (key : String) (data : List Nat) (c c2 : MemoryCache),
        MemoryCache.set fuel now key data ttl c = some c2 →
        c2.entries.length ≤ c2.maxEntries) ∧
    (∀ (now ttl : ℚ) (key lru : String) (data : List Nat) (c : MemoryCache) (e : CacheEntry),
        (c.entries.map Prod.fst).Nodup →
        c.accessOrder.head? = some lru →
        lookupEntry lru c.entries = some e →
        lookupEntry key c.entries = none →
        c.entries.length = c.maxEntries →
        ∃ c2, MemoryCache.set 2 now key data ttl c = some c2
          ∧ c2.stats.evictions = c.stats.evictions + 1
          ∧ lookupEntry lru c2.entries = none
          ∧ lookupEntry key c2.entries = some (mkEntry now data ttl)
          ∧ c2.entries.length = c.maxEntries
          ∧ c2.accessOrder.getLast? = some key) ∧
    (∀ (now ttl : ℚ) (key : String) (data : List Nat) (c : MemoryCache) (e : CacheEntry),
        lookupEntry key c.entries = some e →
        c.entries.length < c.maxEntries →
        ∃ c2, MemoryCache.set 1 now key data ttl c = some c2
          ∧ c2.stats.evictions = c.stats.evictions) ∧
    (∀ (now ttl : ℚ) (key lru : String) (data : List Nat) (c : MemoryCache)
        (e old : CacheEntry),
        (c.entries.map Prod.fst).Nodup →
        lookupEntry key c.entries = some old →
        (c.accessOrder.filter (fun k => !(k == key))).head? = some lru →
        lookupEntry lru c.entries = some e →
        c.entries.length = c.maxEntries →
        ∃ c2, MemoryCache.set 2 now key data ttl c = some c2
          ∧ c2.stats.evictions = c.stats.evictions + 1
          ∧ lookupEntry lru c2.entries = none) ∧
    (∀ (now : ℚ) (key : String) (c : MemoryCache) (e : CacheEntry),
        lookupEntry key c.entries = some e →
        e.isExpired now = false →
        (c.get now key).2.accessOrder
            = c.accessOrder.filter (fun k => !(k == key)) ++ [key]
          ∧ (c.get now key).2.accessOrder.getLast? = some key) := by
  refine ⟨?_, ?_, ?_, ?_, ?_⟩
  · intro fuel now ttl key data c c2 h
    unfold MemoryCache.set at h
    obtain ⟨c3, h3, hf⟩ := Option.map_eq_some'.mp h
    have hlt := setLoop_some_lt fuel _ c3 h3
    rw [← hf]
    show (insertEntry key (mkEntry now data ttl) c3.entries).length ≤ c3.maxEntries
    exact le_trans (insertEntry_length_le _ _ _) (Nat.succ_le_of_lt hlt)
  · intro now ttl key lru data c e hnd hhead hlook hnew hfull
    have hne : lru ≠ key := by
      intro hh
      rw [hh, hnew] at hlook
      cases hlook
    have herase1 := eraseEntry_length_nodup c.entries hnd hlook
    have hdrop : (eraseEntry lru c.entries).length < c.maxEntries := by omega
    have hc1 : c.unlink key = c := by
      have hcont : containsKey key c.entries = false := by simp [containsKey, hnew]
      simp [MemoryCache.unlink, hcont]
    have hloop := set_evicts_one c lru e hhead hlook (le_of_eq hfull.symm) hdrop
    have hev := evictLru_spec c lru e hhead hlook
    refine ⟨MemoryCache.finishSet now key data ttl c.evictLru, ?_, ?_, ?_, ?_, ?_, ?_⟩
    · unfold MemoryCache.set
      rw [hc1, hloop]
      rfl
    · show c.evictLru.stats.evictions = c.stats.evictions + 1
      rw [hev]
    · show lookupEntry lru (insertEntry key (mkEntry now data ttl) c.evictLru.entries) = none
      rw [lookupEntry_insertEntry_ne hne, hev]
      exact lookupEntry_eraseEntry_self lru c.entries
    · exact lookupEntry_insertEntry_self key _ _
    · show (insertEntry key (mkEntry now data ttl) c.evictLru.entries).length = c.maxEntries
      rw [hev]
      show (insertEntry key (mkEntry now data ttl) (eraseEntry lru c.entries)).length
          = c.maxEntries
      have hkey2 : lookupEntry key (eraseEntry lru c.entries) = none := by
        rw [lookupEntry_eraseEntry_ne (Ne.symm hne)]
        exact hnew
      rw [insertEntry_length_of_none hkey2]
      omega
    · exact List.getLast?_concat _
  · intro now ttl key data c e hsome hroom
    have hroom2 : (c.unlink key).entries.length < (c.unlink key).maxEntries := by
      rw [unlink_entries, unlink_maxEntries]
      exact hroom
    have h1 : MemoryCache.setLoop 1 (c.unlink key) = some (c.unlink key) :=
      setLoop_room _ hroom2 0
    refine ⟨MemoryCache.finishSet now key data ttl (c.unlink key), ?_, ?_⟩
    · unfold MemoryCache.set
      rw [h1]
      rfl
    · show (c.unlink key).stats.evictions = c.stats.evictions
      rw [unlink_stats]
  · intro now ttl key lru data c e old hnd hsome hother hlook hfull
    have hne : lru ≠ key := head_filter_ne key c.accessOrder lru hother
    have hcont : containsKey key c.entries = true := by simp [containsKey, hsome]
    have hc1 : c.unlink key
        = { c with accessOrder := c.accessOrder.filter (fun k => !(k == key)) } := by
      simp [MemoryCache.unlink, hcont]
    have hhead1 : (c.unlink key).accessOrder.head? = some lru := by
      rw [hc1]
      exact hother
    have hlook1 : lookupEntry lru (c.unlink key).entries = some e := by
      rw [unlink_entries]
      exact hlook
    have herase1 := eraseEntry_length_nodup c.entries hnd hlook
    have hdrop1 : (eraseEntry lru (c.unlink key).entries).length
        < (c.unlink key).maxEntries := by
      rw [unlink_entries, unlink_maxEntries]
      omega
    have hfull1 : (c.unlink key).maxEntries ≤ (c.unlink key).entries.length := by
      rw [unlink_entries, unlink_maxEntries]
      omega
    have hloop := set_evicts_one (c.unlink key) lru e hhead1 hlook1 hfull1 hdrop1
    have hev := evictLru_spec (c.unlink key) lru e hhead1 hlook1
    refine ⟨MemoryCache.finishSet now key data ttl (c.unlink key).evictLru, ?_, ?_, ?_⟩
    · unfold MemoryCache.set
      rw [hloop]
      rfl
    · show (c.unlink key).evictLru.stats.evictions = c.stats.evictions + 1
      rw [hev]
      show (c.unlink key).stats.evictions + 1 = c.stats.evictions + 1
      rw [unlink_stats]
    · show lookupEntry lru
          (insertEntry key (mkEntry now data ttl) (c.unlink key).evictLru.entries) = none
      rw [lookupEntry_insertEntry_ne hne, hev]
      exact lookupEntry_eraseEntry_self lru (c.unlink key).entries
  · intro now key c e hf hex
    constructor
    · simp [MemoryCache.get, hf, hex]
    · simp [MemoryCache.get, hf, hex, List.getLast?_concat]

/-- Witness for C5 (amended): a concrete successful set respects the entry
bound. -/
theorem lru_eviction_amended_witness :
    MemoryCache.set 1 0 "a" [1] 5 (emptyCache 2) = some cW5 ∧
    cW5.entries.length ≤ cW5.maxEntries :=
  ⟨rfl, lru_eviction_amended.1 1 0 5 "a" [1] (emptyCache 2) cW5 rfl⟩

/-- C5 counterexample: a cache at capacity 2 holding keys a and b; setting
the already present key b evicts key a and increments the eviction counter,
so the claim that setting an already-present key evicts nothing is false. -/
theorem lru_overwrite_cex :
    c5a.map (fun c => (containsKey "b" c.entries, c.stats.evictions,
        c.entries.length, c.maxEntries)) = some (true, 0, 2, 2)
      ∧ c5b.map (fun c => (c.stats.evictions, lookupEntry "a" c.entries)) = some (1, none) := by
  constructor <;> decide

end CRMB
